import Mathlib

/-!
Verification development for `src/build.py` of EDMarketConnector.

The script is modelled by a shallow embedding:
* `system_check` takes an explicit environment record (interpreter version,
  platform, git hash, directory-existence oracle) instead of reading
  `sys.version_info`, `sys.platform`, `git_shorthash_from_head()` and the
  filesystem; `sys.exit(msg)` (which terminates the process with exit
  status 1 and the message) is modelled as `Except.error msg`, and the
  side effects (stamp-file write, `shutil.rmtree`) are recorded in the
  success record.
* `generate_data_files` takes the `os.listdir("L10n")` result and the
  `PLUGINS` constant as explicit arguments; `os.path.join` is modelled
  with the Windows separator, matching the `win32`-only build host.
* `windows_installer_display_lang` takes the text of the `.wxs` descriptor
  file, the temp-directory path, the SDK path and an exit-code oracle for
  `os.system`; it returns the list of filesystem/process actions performed
  together with the Python exception (if any) that aborted it.
  The regular expression search `re.search(r'Languages\s*=\s*"(.+?)"', text)`
  is modelled exactly for ASCII text: leftmost match, greedy `\s*`
  (deterministic here since `\s` never matches `=` or `"`), lazy non-empty
  group that cannot contain a newline (`.` does not match `\n`) and stops
  at the first closing quote; `str.split(",")` and `int(...)` (whitespace
  stripping, optional sign, decimal digits) are modelled faithfully.
-/

namespace Build

/-- Whitespace characters matched by Python's `\s` and stripped by `int()`
(ASCII fragment). -/
def isPySpace (c : Char) : Bool :=
  c = ' ' || c = '\t' || c = '\n' || c = '\r' || c = '\x0b' || c = '\x0c'

/-- Model of `os.path.join` for one relative component, on the Windows build host. -/
def osPathJoin (a b : String) : String :=
  if a = "" then b else a ++ "\\" ++ b

/-- Python `str.endswith(suffix)`: the suffix matches the end of the
string (character-wise). -/
def strEndsWith (s suffix : String) : Bool :=
  s.toList.drop (s.toList.length - suffix.toList.length) == suffix.toList

/-! ## `system_check` -/

/-- The ambient state `system_check` reads: `sys.version_info` (major, minor),
`sys.platform`, `git_shorthash_from_head()` and `os.path.isdir`. -/
structure SysEnv where
  vmajor : Nat
  vminor : Nat
  platform : String
  gitHash : Option String
  isdir : String → Bool

/-- Outcome of a successful `system_check` run: the returned path, the
content written to the `.gitversion` stamp file, and the directory tree
removed by `shutil.rmtree` (if any). -/
structure SysCheckOk where
  gitversionFile : String
  written : String
  deleted : Option String
  deriving DecidableEq

/-- Embedding of `system_check(dist_dir)` from `src/build.py`.  `sys.version_info < (3, 11)`
is tuple comparison, i.e. lexicographic on (major, minor); a 5-tuple with
major = 3 and minor = 11 is never `< (3, 11)`. -/
def system_check (env : SysEnv) (dist_dir : String) : Except String SysCheckOk :=
  if env.vmajor < 3 ∨ (env.vmajor = 3 ∧ env.vminor < 11) then
    .error "Unexpected Python version"
  else if env.platform ≠ "win32" then
    .error ("Unsupported platform " ++ env.platform)
  else
    match env.gitHash with
    | none => .error "Invalid Git Hash"
    | some git_shorthash =>
        .ok ⟨".gitversion", git_shorthash,
          if dist_dir ≠ "" ∧ 1 < dist_dir.length ∧ env.isdir dist_dir = true then
            some dist_dir
          else
            none⟩

/-- Holds iff the `system_check` run called `shutil.rmtree`. -/
def deletionAttempted (env : SysEnv) (dist_dir : String) : Bool :=
  match system_check env dist_dir with
  | .ok r => r.deleted.isSome
  | .error _ => false

/-! ## `generate_data_files` -/

/-- Embedding of `generate_data_files(app_name, gitversion_file)` from `src/build.py`,
with the `os.listdir("L10n")` result and the `PLUGINS` constant passed
explicitly. -/
def generate_data_files (app_name gitversion_file : String)
    (l10nListing : List String) (plugins : List String) :
    List (String × List String) :=
  let l10n_dir := "L10n"
  let fdevids_dir := "FDevIDs"
  [ ("",
      [ gitversion_file,
        "WinSparkle.dll",
        "WinSparkle.pdb",
        "EUROCAPS.TTF",
        "ChangeLog.md",
        "snd_good.wav",
        "snd_bad.wav",
        "modules.p",
        "ships.p",
        app_name ++ ".VisualElementsManifest.xml",
        app_name ++ ".ico",
        "EDMarketConnector - TRACE.bat",
        "EDMarketConnector - localserver-auth.bat",
        "EDMarketConnector - reset-ui.bat" ]),
    (l10n_dir,
      (l10nListing.filter (fun x => strEndsWith x ".strings")).map
        (fun x => osPathJoin l10n_dir x)),
    (fdevids_dir,
      [ osPathJoin fdevids_dir "commodity.csv",
        osPathJoin fdevids_dir "rare_commodity.csv" ]),
    ("plugins", plugins) ]

/-! ## Locale-list extraction (`re.search`, `split(",")`, `int`) -/

/-- The lazy group `(.+?)` followed by the closing `"`: at least one
character, stopping at the first subsequent quote, no newline allowed
(`.` does not match `\n`). -/
def quoteBody : List Char → Option (List Char)
  | [] => none
  | c0 :: tail =>
    if (tail.dropWhile (fun c => c ≠ '"')).isEmpty then
      none
    else if (c0 :: tail.takeWhile (fun c => c ≠ '"')).any (fun c => c = '\n') then
      none
    else
      some (c0 :: tail.takeWhile (fun c => c ≠ '"'))

/-- Try to match `Languages\s*=\s*"(.+?)"` anchored at the head of `cs`,
returning the group. -/
def matchLanguagesAt (cs : List Char) : Option (List Char) :=
  if cs.take 9 = "Languages".toList then
    match (cs.drop 9).dropWhile isPySpace with
    | '=' :: r2 =>
      match r2.dropWhile isPySpace with
      | '"' :: r3 => quoteBody r3
      | _ => none
    | _ => none
  else none

/-- Model of `re.search(r'Languages\s*=\s*"(.+?)"', text).group(1)`: leftmost match. -/
def reSearchLanguages : List Char → Option (List Char)
  | [] => none
  | c :: rest =>
    match matchLanguagesAt (c :: rest) with
    | some g => some g
    | none => reSearchLanguages rest

/-- Python `str.split(",")`: always at least one (possibly empty) piece. -/
def splitOnComma : List Char → List (List Char)
  | [] => [[]]
  | c :: rest =>
    if c = ',' then
      [] :: splitOnComma rest
    else
      match splitOnComma rest with
      | [] => [[c]]
      | g :: gs => (c :: g) :: gs

/-- Numeric value of a digit string. -/
def digitsVal (cs : List Char) : Nat :=
  cs.foldl (fun acc c => acc * 10 + (c.toNat - '0'.toNat)) 0

/-- Digit/sign parsing of Python `int(s)` after whitespace stripping. -/
def pyIntCore : List Char → Option Int
  | [] => none
  | c :: rest =>
    if c = '-' then
      if rest ≠ [] ∧ rest.all Char.isDigit = true then
        some (-(digitsVal rest : Int))
      else none
    else if c = '+' then
      if rest ≠ [] ∧ rest.all Char.isDigit = true then
        some ((digitsVal rest : Nat) : Int)
      else none
    else
      if (c :: rest).all Char.isDigit = true then
        some ((digitsVal (c :: rest) : Nat) : Int)
      else none

/-- Python `int(s)` on a string: strips surrounding whitespace, optional
sign, then decimal digits; `none` models `ValueError`. -/
def pyInt (s : List Char) : Option Int :=
  pyIntCore (((s.dropWhile isPySpace).reverse.dropWhile isPySpace).reverse)

/-- Python exceptions that can abort `windows_installer_display_lang`. -/
inductive PyErr
  | attributeError
  | valueError
  | assertionError
  | indexError
  deriving DecidableEq

/-- The locale-ID extraction of `windows_installer_display_lang`:
`[int(x) for x in re.search(...).group(1).split(",")]`.
A failed search gives `AttributeError` (`.group` on `None`); a piece
`int()` cannot parse gives `ValueError`. -/
def parseLcids (wxs : List Char) : Except PyErr (List Int) :=
  match reSearchLanguages wxs with
  | none => .error .attributeError
  | some g =>
    match (splitOnComma g).mapM pyInt with
    | none => .error .valueError
    | some lcids => .ok lcids

/-! ## `windows_installer_display_lang` -/

/-- A filesystem/process action performed by the language splitter:
a `shutil.copyfile` or an `os.system` call (with the exit code the call
returned, which the script discards). -/
inductive Action
  | copyfile (src dst : String)
  | system (cmd : String) (exitCode : Int)
  deriving DecidableEq

/-- Whether an action is a package-file copy. -/
def Action.isCopy : Action → Bool
  | .copyfile _ _ => true
  | .system _ _ => false

/-- Result of a `windows_installer_display_lang` run: the actions performed,
in order, and the Python exception that aborted it (`none` = normal return). -/
structure WResult where
  actions : List Action
  err : Option PyErr
  deriving DecidableEq

/-- The temp path `join(gettempdir(), f"...")` of a per-locale package copy. -/
def tmpMsi (tmp app_name : String) (lcid : Int) : String :=
  osPathJoin tmp (app_name ++ "_" ++ toString lcid ++ ".msi")

/-- The three SDK command lines run for one locale (WiLangId.vbs stamping,
MsiTran.Exe transform generation, WiSubStg.vbs transform embedding). -/
def langCmds (app_name filename tmp sdk : String) (lcid : Int) : List String :=
  [ "cscript /nologo \"" ++ sdk ++ "\\WiLangId.vbs\" " ++ tmp ++ "\\" ++
      app_name ++ "_" ++ toString lcid ++ ".msi Product " ++ toString lcid,
    "\"" ++ sdk ++ "\\MsiTran.Exe\" -g " ++ tmp ++ "\\" ++ app_name ++
      "_1033.msi " ++ tmp ++ "\\" ++ app_name ++ "_" ++ toString lcid ++
      ".msi " ++ tmp ++ "\\" ++ toString lcid ++ ".mst",
    "cscript /nologo \"" ++ sdk ++ "\\WiSubStg.vbs\" " ++ filename ++ " " ++
      tmp ++ "\\" ++ toString lcid ++ ".mst " ++ toString lcid ]

/-- The `for lcid in lcids[1:]` loop body, iterated: copy the 1033 base to
the per-locale name, then fire the three SDK commands, discarding the exit
code `os_exit` reports for each. -/
def localeSteps (app_name filename tmp sdk : String) (os_exit : String → Int) :
    List Int → List Action
  | [] => []
  | lcid :: rest =>
    Action.copyfile (tmpMsi tmp app_name 1033) (tmpMsi tmp app_name lcid)
      :: ((langCmds app_name filename tmp sdk lcid).map
            (fun c => Action.system c (os_exit c))
          ++ localeSteps app_name filename tmp sdk os_exit rest)

/-- Embedding of `windows_installer_display_lang(app_name, filename)` from `src/build.py`,
with the `.wxs` descriptor text, `gettempdir()`, `SDKPATH` and the
`os.system` exit-code oracle passed explicitly.  Parsing the locale list
completes before any copy; the `assert lcids[0] == 1033` runs next; only
then does any file copy happen. -/
def windows_installer_display_lang (app_name filename : String)
    (wxs : List Char) (tmp sdk : String) (os_exit : String → Int) : WResult :=
  match parseLcids wxs with
  | .error e => ⟨[], some e⟩
  | .ok [] => ⟨[], some .indexError⟩
  | .ok (l0 :: rest) =>
    if l0 ≠ 1033 then
      ⟨[], some .assertionError⟩
    else
      ⟨Action.copyfile filename (tmpMsi tmp app_name 1033)
          :: localeSteps app_name filename tmp sdk os_exit rest,
        none⟩

/-! ## Helper lemmas -/

/-- Concrete environments used by the witnesses. -/
def env0 : SysEnv :=
  ⟨3, 11, "win32", some "abc1234", fun _ => true⟩

/-- A second concrete environment (different minor version, different
filesystem) with the same git hash. -/
def env1 : SysEnv :=
  ⟨3, 12, "win32", some "abc1234", fun _ => false⟩

lemma system_check_ok_elim {env : SysEnv} {d : String} {r : SysCheckOk}
    (h : system_check env d = .ok r) :
    r.gitversionFile = ".gitversion" ∧ env.gitHash = some r.written := by
  unfold system_check at h
  by_cases h1 : env.vmajor < 3 ∨ (env.vmajor = 3 ∧ env.vminor < 11)
  · rw [if_pos h1] at h
    exact Except.noConfusion h
  · rw [if_neg h1] at h
    by_cases h2 : env.platform ≠ "win32"
    · rw [if_pos h2] at h
      exact Except.noConfusion h
    · rw [if_neg h2] at h
      rcases hg : env.gitHash with _ | g <;> rw [hg] at h
      · exact Except.noConfusion h
      · rw [Except.ok.injEq] at h
        subst h
        exact ⟨rfl, rfl⟩

lemma system_check_deleted_elim {env : SysEnv} {d : String} {r : SysCheckOk}
    (h : system_check env d = .ok r) :
    r.deleted =
      if d ≠ "" ∧ 1 < d.length ∧ env.isdir d = true then some d else none := by
  unfold system_check at h
  by_cases h1 : env.vmajor < 3 ∨ (env.vmajor = 3 ∧ env.vminor < 11)
  · rw [if_pos h1] at h
    exact Except.noConfusion h
  · rw [if_neg h1] at h
    by_cases h2 : env.platform ≠ "win32"
    · rw [if_pos h2] at h
      exact Except.noConfusion h
    · rw [if_neg h2] at h
      rcases hg : env.gitHash with _ | g <;> rw [hg] at h
      · exact Except.noConfusion h
      · rw [Except.ok.injEq] at h
        subst h
        rfl

/-! ## C1 -/

/-- C1: `system_check` attempts `shutil.rmtree` only when the output
directory path is non-empty, longer than one character, and names an
existing directory; in particular an empty or single-character path (the
contrapositive) is never deleted. -/
theorem c1_degenerate_path_no_deletion
    (env : SysEnv) (d : String) (h : deletionAttempted env d = true) :
    d ≠ "" ∧ 1 < d.length ∧ env.isdir d = true := by
  unfold deletionAttempted at h
  split at h
  · rename_i r heq
    have hd := system_check_deleted_elim heq
    rw [hd] at h
    by_cases hc : d ≠ "" ∧ 1 < d.length ∧ env.isdir d = true
    · exact hc
    · rw [if_neg hc] at h
      simp at h
  · simp at h

theorem c1_witness :
    ("dist.win32" : String) ≠ "" ∧ 1 < ("dist.win32" : String).length ∧
      env0.isdir "dist.win32" = true :=
  c1_degenerate_path_no_deletion env0 "dist.win32" (by decide)

/-! ## C3 -/

/-- C3: `system_check` fails (modelling `sys.exit(msg)`, which terminates
the process with a non-zero status and the message) exactly when the
interpreter version is below (3, 11), the platform differs from `win32`,
or no git short hash can be derived; in every supported combination it
returns the stamp-file path `.gitversion` after writing the hash to it. -/
theorem c3_preflight_accepts_exactly_supported (env : SysEnv) (d : String) :
    ((∃ msg, system_check env d = .error msg) ↔
      (env.vmajor < 3 ∨ (env.vmajor = 3 ∧ env.vminor < 11)) ∨
        env.platform ≠ "win32" ∨ env.gitHash = none)
    ∧ ∀ r, system_check env d = .ok r →
        r.gitversionFile = ".gitversion" ∧ env.gitHash = some r.written := by
  constructor
  · constructor
    · rintro ⟨msg, hmsg⟩
      by_contra hcon
      rcases not_or.mp hcon with ⟨hv, hrest⟩
      rcases not_or.mp hrest with ⟨hp, hgn⟩
      rcases hg : env.gitHash with _ | g
      · exact hgn hg
      · unfold system_check at hmsg
        rw [if_neg hv, if_neg hp, hg] at hmsg
        exact Except.noConfusion hmsg
    · intro hbad
      unfold system_check
      by_cases hv : env.vmajor < 3 ∨ (env.vmajor = 3 ∧ env.vminor < 11)
      · rw [if_pos hv]
        exact ⟨_, rfl⟩
      · rw [if_neg hv]
        by_cases hp : env.platform ≠ "win32"
        · rw [if_pos hp]
          exact ⟨_, rfl⟩
        · rw [if_neg hp]
          rcases hbad with h | h | h
          · exact absurd h hv
          · exact absurd h hp
          · rw [h]
            exact ⟨_, rfl⟩
  · exact fun r hr => system_check_ok_elim hr

theorem c3_witness :
    SysCheckOk.gitversionFile ⟨".gitversion", "abc1234", some "dist.win32"⟩
        = ".gitversion" ∧
      env0.gitHash =
        some (SysCheckOk.written ⟨".gitversion", "abc1234", some "dist.win32"⟩) :=
  (c3_preflight_accepts_exactly_supported env0 "dist.win32").2
    ⟨".gitversion", "abc1234", some "dist.win32"⟩ (by rfl)

/-! ## C8 -/

/-- C8: for a fixed source-control HEAD (the derived short hash is the same
non-`none` value in both runs), two successful `system_check` runs write
byte-identical content to the version-stamp file. -/
theorem c8_stamp_file_deterministic
    (e1 e2 : SysEnv) (d1 d2 : String) (h : String) (r1 r2 : SysCheckOk)
    (hg1 : e1.gitHash = some h) (hg2 : e2.gitHash = some h)
    (hr1 : system_check e1 d1 = .ok r1) (hr2 : system_check e2 d2 = .ok r2) :
    r1.written = r2.written := by
  have w1 := (system_check_ok_elim hr1).2
  have w2 := (system_check_ok_elim hr2).2
  rw [hg1] at w1
  rw [hg2] at w2
  injection w1 with w1'
  injection w2 with w2'
  exact w1'.symm.trans w2'

theorem c8_witness :
    SysCheckOk.written ⟨".gitversion", "abc1234", some "dist.win32"⟩ =
      SysCheckOk.written ⟨".gitversion", "abc1234", none⟩ :=
  c8_stamp_file_deterministic env0 env1 "dist.win32" "x" "abc1234"
    ⟨".gitversion", "abc1234", some "dist.win32"⟩
    ⟨".gitversion", "abc1234", none⟩
    rfl rfl (by rfl) (by rfl)

/-! ## C6 -/

/-- C6: the localization entry of the data-file manifest contains exactly
the listed files whose names end in `.strings` (joined under `L10n`), and
on the listing `{de.strings, fr.strings, readme.txt}` it contains exactly
the two `.strings` files and excludes `readme.txt`. -/
theorem c6_l10n_entry_exactly_strings_files
    (app gvf : String) (listing plugins : List String) :
    (∀ (x : String) (l10nList : List String),
        (generate_data_files app gvf listing plugins)[1]? = some ("L10n", l10nList) →
        (x ∈ l10nList ↔
          ∃ f, f ∈ listing ∧ strEndsWith f ".strings" = true ∧ x = osPathJoin "L10n" f))
    ∧ (generate_data_files app gvf ["de.strings", "fr.strings", "readme.txt"]
          plugins)[1]? =
        some ("L10n", ["L10n\\de.strings", "L10n\\fr.strings"]) := by
  constructor
  · intro x l10nList hEntry
    have hval : (generate_data_files app gvf listing plugins)[1]? =
        some ("L10n",
          (listing.filter (fun y => strEndsWith y ".strings")).map
            (fun y => osPathJoin "L10n" y)) := rfl
    rw [hval] at hEntry
    simp only [Option.some.injEq, Prod.mk.injEq] at hEntry
    rw [← hEntry.2]
    simp only [List.mem_map, List.mem_filter]
    constructor
    · rintro ⟨f, ⟨hf, hs⟩, hx⟩
      exact ⟨f, hf, hs, hx.symm⟩
    · rintro ⟨f, hf, hs, hx⟩
      exact ⟨f, ⟨hf, hs⟩, hx.symm⟩
  · rfl

theorem c6_witness :
    ("L10n\\de.strings" ∈ (["L10n\\de.strings", "L10n\\fr.strings"] : List String) ↔
      ∃ f, f ∈ (["de.strings", "fr.strings", "readme.txt"] : List String) ∧
        strEndsWith f ".strings" = true ∧ "L10n\\de.strings" = osPathJoin "L10n" f) :=
  (c6_l10n_entry_exactly_strings_files "EDMarketConnector" ".gitversion"
      ["de.strings", "fr.strings", "readme.txt"] []).1
    "L10n\\de.strings" ["L10n\\de.strings", "L10n\\fr.strings"] (by rfl)

/-! ## C9 -/

/-- C9: when the localization directory listing has no `.strings` file,
`generate_data_files` still returns the full four-entry manifest, with the
localization entry's source list empty. -/
theorem c9_no_strings_files_empty_entry
    (app gvf : String) (listing plugins : List String)
    (hnone : ∀ f ∈ listing, strEndsWith f ".strings" = false) :
    (generate_data_files app gvf listing plugins)[1]? = some ("L10n", []) ∧
      (generate_data_files app gvf listing plugins).length = 4 := by
  have hfilter : listing.filter (fun x => strEndsWith x ".strings") = [] := by
    rw [List.filter_eq_nil_iff]
    intro a ha
    simp [hnone a ha]
  have hval : (generate_data_files app gvf listing plugins)[1]? =
      some ("L10n",
        (listing.filter (fun y => strEndsWith y ".strings")).map
          (fun y => osPathJoin "L10n" y)) := rfl
  constructor
  · rw [hval, hfilter]
    rfl
  · rfl

theorem c9_witness :
    (generate_data_files "EDMarketConnector" ".gitversion" ["readme.txt"]
        [])[1]? = some ("L10n", []) ∧
      (generate_data_files "EDMarketConnector" ".gitversion" ["readme.txt"]
        []).length = 4 :=
  c9_no_strings_files_empty_entry "EDMarketConnector" ".gitversion"
    ["readme.txt"] [] (by decide)

/-! ## Lemmas about the locale loop and the parse step -/

lemma splitOnComma_ne_nil : ∀ cs : List Char, splitOnComma cs ≠ [] := by
  intro cs
  cases cs with
  | nil => simp [splitOnComma]
  | cons c rest =>
    unfold splitOnComma
    by_cases hc : c = ','
    · rw [if_pos hc]
      simp
    · rw [if_neg hc]
      cases h : splitOnComma rest with
      | nil => simp
      | cons g gs => simp

lemma parseLcids_ok_ne_nil {wxs : List Char} {lcids : List Int}
    (h : parseLcids wxs = .ok lcids) : lcids ≠ [] := by
  unfold parseLcids at h
  cases hs : reSearchLanguages wxs with
  | none =>
    rw [hs] at h
    exact Except.noConfusion h
  | some g =>
    rw [hs] at h
    change (match (splitOnComma g).mapM pyInt with
      | none => Except.error PyErr.valueError
      | some lcids => Except.ok lcids) = Except.ok lcids at h
    cases hg : splitOnComma g with
    | nil => exact absurd hg (splitOnComma_ne_nil g)
    | cons p ps =>
      rw [hg] at h
      rw [List.mapM_cons] at h
      cases hp : pyInt p with
      | none =>
        rw [hp] at h
        exact Except.noConfusion h
      | some b =>
        rw [hp] at h
        cases hm : ps.mapM pyInt with
        | none =>
          rw [hm] at h
          exact Except.noConfusion h
        | some bs =>
          rw [hm] at h
          rw [show ((some b >>= fun x =>
              some bs >>= fun xs => pure (x :: xs)) : Option (List Int)) =
                some (b :: bs) from rfl] at h
          rw [Except.ok.injEq] at h
          rw [← h]
          simp

lemma localeSteps_filter_copies (app fn tmp sdk : String) (e : String → Int) :
    ∀ L : List Int,
      (localeSteps app fn tmp sdk e L).filter Action.isCopy =
        L.map (fun lcid =>
          Action.copyfile (tmpMsi tmp app 1033) (tmpMsi tmp app lcid)) := by
  intro L
  induction L with
  | nil => rfl
  | cons lcid rest ih =>
    simp only [localeSteps, langCmds, List.map_cons, List.map_nil,
      List.filter_cons, List.filter_append, Action.isCopy, List.filter_nil,
      ih]
    simp

/-! ## C2 -/

/-- C2: if the parsed locale list does not start with 1033, the splitter
aborts with an assertion failure before performing any file copy, so no
per-locale package copies exist. -/
theorem c2_wrong_default_locale_aborts_before_copy
    (app fn : String) (wxs : List Char) (tmp sdk : String)
    (os_exit : String → Int) (lcids : List Int)
    (hp : parseLcids wxs = .ok lcids)
    (hfirst : lcids.head? ≠ some 1033) :
    windows_installer_display_lang app fn wxs tmp sdk os_exit =
      ⟨[], some .assertionError⟩ := by
  cases lcids with
  | nil => exact absurd rfl (parseLcids_ok_ne_nil hp)
  | cons l0 rest =>
    have hne : l0 ≠ 1033 := by
      intro he
      exact hfirst (by rw [he]; rfl)
    unfold windows_installer_display_lang
    rw [hp]
    exact if_pos hne

theorem c2_witness :
    windows_installer_display_lang "EDMarketConnector" "out.msi"
        ("Languages=\"1031,1033\"".toList) "T" "S" (fun _ => 0) =
      ⟨[], some .assertionError⟩ :=
  c2_wrong_default_locale_aborts_before_copy "EDMarketConnector" "out.msi"
    ("Languages=\"1031,1033\"".toList) "T" "S" (fun _ => 0) [1031, 1033]
    (by rfl) (by decide)

/-! ## C10 -/

/-- C10: when the descriptor text has no match for the `Languages`
attribute pattern, the splitter raises `AttributeError` (attribute access
on the `None` returned by `re.search`) before any file copy or external
invocation, so no per-locale copies are created. -/
theorem c10_no_languages_match_raises
    (app fn : String) (wxs : List Char) (tmp sdk : String)
    (os_exit : String → Int)
    (h : reSearchLanguages wxs = none) :
    windows_installer_display_lang app fn wxs tmp sdk os_exit =
      ⟨[], some .attributeError⟩ := by
  unfold windows_installer_display_lang parseLcids
  rw [h]

theorem c10_witness :
    windows_installer_display_lang "EDMarketConnector" "out.msi"
        ("no languages attribute here".toList) "T" "S" (fun _ => 0) =
      ⟨[], some .attributeError⟩ :=
  c10_no_languages_match_raises "EDMarketConnector" "out.msi"
    ("no languages attribute here".toList) "T" "S" (fun _ => 0) (by rfl)

/-! ## C4 -/

/-- C4: the exit codes of the three SDK invocations are discarded: for a
successfully parsed descriptor starting with 1033, the splitter never
errors, performs the same package copies under any two exit-code oracles,
and reaches every remaining locale's copy regardless of the codes. -/
theorem c4_sdk_exit_codes_ignored
    (app fn : String) (wxs : List Char) (tmp sdk : String)
    (o o' : String → Int) (rest : List Int)
    (hp : parseLcids wxs = .ok (1033 :: rest)) :
    (windows_installer_display_lang app fn wxs tmp sdk o).err = none ∧
    (windows_installer_display_lang app fn wxs tmp sdk o).actions.filter
        Action.isCopy =
      (windows_installer_display_lang app fn wxs tmp sdk o').actions.filter
        Action.isCopy ∧
    ∀ lcid ∈ rest,
      Action.copyfile (tmpMsi tmp app 1033) (tmpMsi tmp app lcid) ∈
        (windows_installer_display_lang app fn wxs tmp sdk o).actions := by
  have hrun : ∀ e : String → Int,
      windows_installer_display_lang app fn wxs tmp sdk e =
        ⟨Action.copyfile fn (tmpMsi tmp app 1033)
            :: localeSteps app fn tmp sdk e rest, none⟩ := by
    intro e
    unfold windows_installer_display_lang
    rw [hp]
    exact if_neg (fun hh => hh rfl)
  refine ⟨?_, ?_, ?_⟩
  · rw [hrun o]
  · rw [hrun o, hrun o']
    simp only [List.filter_cons, Action.isCopy]
    rw [localeSteps_filter_copies, localeSteps_filter_copies]
  · intro lcid hl
    rw [hrun o]
    simp only [List.mem_cons]
    right
    have hmem : Action.copyfile (tmpMsi tmp app 1033) (tmpMsi tmp app lcid) ∈
        (localeSteps app fn tmp sdk o rest).filter Action.isCopy := by
      rw [localeSteps_filter_copies]
      exact List.mem_map_of_mem _ hl
    exact List.mem_of_mem_filter hmem

theorem c4_witness :
    (windows_installer_display_lang "EDMC" "out.msi"
        ("Languages=\"1033,1031\"".toList) "T" "S" (fun _ => 0)).err = none ∧
    (windows_installer_display_lang "EDMC" "out.msi"
        ("Languages=\"1033,1031\"".toList) "T" "S" (fun _ => 0)).actions.filter
        Action.isCopy =
      (windows_installer_display_lang "EDMC" "out.msi"
        ("Languages=\"1033,1031\"".toList) "T" "S" (fun _ => 1)).actions.filter
        Action.isCopy ∧
    ∀ lcid ∈ [(1031 : Int)],
      Action.copyfile (tmpMsi "T" "EDMC" 1033) (tmpMsi "T" "EDMC" lcid) ∈
        (windows_installer_display_lang "EDMC" "out.msi"
          ("Languages=\"1033,1031\"".toList) "T" "S" (fun _ => 0)).actions :=
  c4_sdk_exit_codes_ignored "EDMC" "out.msi"
    ("Languages=\"1033,1031\"".toList) "T" "S" (fun _ => 0) (fun _ => 1)
    [1031] (by rfl)

/-! ## C5 -/

/-- C5: on a descriptor parsing to `[1033, 1031, 1036]`, the splitter
performs exactly three package copies: the base copy of the input package
under the 1033 name, and copies of that 1033 base under the 1031 and 1036
names — and completes without error. -/
theorem c5_three_locale_copies
    (app fn : String) (wxs : List Char) (tmp sdk : String)
    (o : String → Int)
    (hp : parseLcids wxs = .ok [1033, 1031, 1036]) :
    (windows_installer_display_lang app fn wxs tmp sdk o).err = none ∧
    (windows_installer_display_lang app fn wxs tmp sdk o).actions.filter
        Action.isCopy =
      [ Action.copyfile fn (tmpMsi tmp app 1033),
        Action.copyfile (tmpMsi tmp app 1033) (tmpMsi tmp app 1031),
        Action.copyfile (tmpMsi tmp app 1033) (tmpMsi tmp app 1036) ] := by
  have hrun : windows_installer_display_lang app fn wxs tmp sdk o =
      ⟨Action.copyfile fn (tmpMsi tmp app 1033)
          :: localeSteps app fn tmp sdk o [1031, 1036], none⟩ := by
    unfold windows_installer_display_lang
    rw [hp]
    exact if_neg (fun hh => hh rfl)
  rw [hrun]
  refine ⟨rfl, ?_⟩
  simp only [List.filter_cons, Action.isCopy]
  rw [localeSteps_filter_copies]
  simp

theorem c5_witness :
    (windows_installer_display_lang "EDMC" "out.msi"
        ("Languages=\"1033,1031,1036\"".toList) "T" "S" (fun _ => 0)).err =
        none ∧
    (windows_installer_display_lang "EDMC" "out.msi"
        ("Languages=\"1033,1031,1036\"".toList) "T" "S"
        (fun _ => 0)).actions.filter Action.isCopy =
      [ Action.copyfile "out.msi" (tmpMsi "T" "EDMC" 1033),
        Action.copyfile (tmpMsi "T" "EDMC" 1033) (tmpMsi "T" "EDMC" 1031),
        Action.copyfile (tmpMsi "T" "EDMC" 1033) (tmpMsi "T" "EDMC" 1036) ] :=
  c5_three_locale_copies "EDMC" "out.msi"
    ("Languages=\"1033,1031,1036\"".toList) "T" "S" (fun _ => 0) (by rfl)

/-! ## C7: what the locale-list parse accepts -/

/-- Comma-separated join, the inverse image `split(",")` reconstructs. -/
def commaJoin : List (List Char) → List Char
  | [] => []
  | [g] => g
  | g :: g2 :: gs => g ++ ',' :: commaJoin (g2 :: gs)

/-- A minimal descriptor text whose `Languages` attribute value is `g`. -/
def mkLanguagesWxs (g : List Char) : List Char :=
  "Languages=\"".toList ++ g ++ ['"']

lemma takeWhile_append_of_all {p : Char → Bool} :
    ∀ (xs ys : List Char), (∀ x ∈ xs, p x = true) →
      (xs ++ ys).takeWhile p = xs ++ ys.takeWhile p := by
  intro xs
  induction xs with
  | nil => intro ys _; rfl
  | cons a l ih =>
    intro ys h
    have ha : p a = true := h a (List.mem_cons_self a l)
    simp [List.takeWhile_cons, ha,
      ih ys (fun x hx => h x (List.mem_cons_of_mem a hx))]

lemma dropWhile_append_of_all {p : Char → Bool} :
    ∀ (xs ys : List Char), (∀ x ∈ xs, p x = true) →
      (xs ++ ys).dropWhile p = ys.dropWhile p := by
  intro xs
  induction xs with
  | nil => intro ys _; rfl
  | cons a l ih =>
    intro ys h
    have ha : p a = true := h a (List.mem_cons_self a l)
    simp [List.dropWhile_cons, ha,
      ih ys (fun x hx => h x (List.mem_cons_of_mem a hx))]

lemma dropWhile_eq_self_of_all {p : Char → Bool} (l : List Char)
    (h : ∀ x ∈ l, p x = false) : l.dropWhile p = l := by
  cases l with
  | nil => rfl
  | cons a r =>
    have ha : p a = false := h a (List.mem_cons_self a r)
    simp [List.dropWhile_cons, ha]

lemma quoteBody_append_quote (g : List Char) (hne : g ≠ [])
    (hq : ∀ c ∈ g, c ≠ '"') (hn : ∀ c ∈ g, c ≠ '\n') :
    quoteBody (g ++ ['"']) = some g := by
  cases g with
  | nil => exact absurd rfl hne
  | cons c0 g' =>
    have hq' : ∀ x ∈ g', (fun c => decide (c ≠ '"')) x = true :=
      fun x hx => decide_eq_true (hq x (List.mem_cons_of_mem c0 hx))
    have htw : (g' ++ ['"']).takeWhile (fun c => c ≠ '"') = g' := by
      rw [takeWhile_append_of_all g' ['"'] hq']
      simp
    have hdw : (g' ++ ['"']).dropWhile (fun c => c ≠ '"') = ['"'] := by
      rw [dropWhile_append_of_all g' ['"'] hq']
      rfl
    have hany : (c0 :: g').any (fun c => c = '\n') = false := by
      rw [List.any_eq_false]
      intro x hx
      simp only [decide_eq_true_eq]
      exact hn x hx
    rw [List.cons_append]
    show (if ((g' ++ ['"']).dropWhile (fun c => c ≠ '"')).isEmpty then
          (none : Option (List Char))
        else if (c0 :: (g' ++ ['"']).takeWhile (fun c => c ≠ '"')).any
            (fun c => c = '\n') then
          none
        else
          some (c0 :: (g' ++ ['"']).takeWhile (fun c => c ≠ '"'))) =
      some (c0 :: g')
    rw [htw, hdw, if_neg (by simp), if_neg (by simp [hany])]

lemma reSearchLanguages_eq_of_match {cs g : List Char} (hne : cs ≠ [])
    (h : matchLanguagesAt cs = some g) : reSearchLanguages cs = some g := by
  cases cs with
  | nil => exact absurd rfl hne
  | cons c rest =>
    unfold reSearchLanguages
    rw [h]

lemma reSearchLanguages_mk (g : List Char) (hne : g ≠ [])
    (hq : ∀ c ∈ g, c ≠ '"') (hn : ∀ c ∈ g, c ≠ '\n') :
    reSearchLanguages (mkLanguagesWxs g) = some g := by
  apply reSearchLanguages_eq_of_match
  · unfold mkLanguagesWxs
    simp
  · have h0 : matchLanguagesAt (mkLanguagesWxs g) = quoteBody (g ++ ['"']) := rfl
    rw [h0, quoteBody_append_quote g hne hq hn]

lemma splitOnComma_cons (c : Char) (rest : List Char) :
    splitOnComma (c :: rest) =
      if c = ',' then [] :: splitOnComma rest
      else
        match splitOnComma rest with
        | [] => [[c]]
        | g :: gs => (c :: g) :: gs := rfl

lemma splitOnComma_no_comma :
    ∀ g : List Char, (∀ c ∈ g, c ≠ ',') → splitOnComma g = [g] := by
  intro g
  induction g with
  | nil => intro _; rfl
  | cons c r ih =>
    intro h
    unfold splitOnComma
    rw [if_neg (h c (List.mem_cons_self c r)),
      ih (fun x hx => h x (List.mem_cons_of_mem c hx))]

lemma splitOnComma_append_comma :
    ∀ (g t : List Char), (∀ c ∈ g, c ≠ ',') →
      splitOnComma (g ++ ',' :: t) = g :: splitOnComma t := by
  intro g
  induction g with
  | nil =>
    intro t _
    rfl
  | cons c r ih =>
    intro t h
    show splitOnComma (c :: (r ++ ',' :: t)) = (c :: r) :: splitOnComma t
    rw [splitOnComma_cons, if_neg (h c (List.mem_cons_self c r)),
      ih t (fun x hx => h x (List.mem_cons_of_mem c hx))]

lemma splitOnComma_commaJoin :
    ∀ gs : List (List Char), gs ≠ [] →
      (∀ g ∈ gs, ∀ c ∈ g, c ≠ ',') → splitOnComma (commaJoin gs) = gs := by
  intro gs
  induction gs with
  | nil => intro h _; exact absurd rfl h
  | cons g rest ih =>
    intro _ hcomma
    cases rest with
    | nil => exact splitOnComma_no_comma g (hcomma g (List.mem_cons_self g []))
    | cons g2 rest2 =>
      show splitOnComma (g ++ ',' :: commaJoin (g2 :: rest2)) = g :: g2 :: rest2
      rw [splitOnComma_append_comma g _ (hcomma g (List.mem_cons_self g _)),
        ih (by simp) (fun x hx => hcomma x (List.mem_cons_of_mem g hx))]

lemma isPySpace_false_of_isDigit {c : Char} (h : c.isDigit = true) :
    isPySpace c = false := by
  unfold isPySpace
  have h1 : ¬(c = ' ') := fun he => absurd (he ▸ h) (by decide)
  have h2 : ¬(c = '\t') := fun he => absurd (he ▸ h) (by decide)
  have h3 : ¬(c = '\n') := fun he => absurd (he ▸ h) (by decide)
  have h4 : ¬(c = '\r') := fun he => absurd (he ▸ h) (by decide)
  have h5 : ¬(c = '\x0b') := fun he => absurd (he ▸ h) (by decide)
  have h6 : ¬(c = '\x0c') := fun he => absurd (he ▸ h) (by decide)
  simp [h1, h2, h3, h4, h5, h6]

lemma pyIntCore_digits (c : Char) (r : List Char)
    (hdig : ∀ x ∈ c :: r, x.isDigit = true) :
    pyIntCore (c :: r) = some ((digitsVal (c :: r) : Nat) : Int) := by
  have hd0 := hdig c (List.mem_cons_self c r)
  have hm : ¬(c = '-') := fun he => absurd (he ▸ hd0) (by decide)
  have hp2 : ¬(c = '+') := fun he => absurd (he ▸ hd0) (by decide)
  show (if c = '-' then
      if r ≠ [] ∧ r.all Char.isDigit = true then
        some (-(digitsVal r : Int))
      else none
    else if c = '+' then
      if r ≠ [] ∧ r.all Char.isDigit = true then
        some ((digitsVal r : Nat) : Int)
      else none
    else if (c :: r).all Char.isDigit = true then
      some ((digitsVal (c :: r) : Nat) : Int)
    else none) = some ((digitsVal (c :: r) : Nat) : Int)
  rw [if_neg hm, if_neg hp2, if_pos (List.all_eq_true.mpr hdig)]

lemma pyInt_digits (s : List Char) (hne : s ≠ [])
    (hdig : ∀ c ∈ s, c.isDigit = true) :
    pyInt s = some ((digitsVal s : Nat) : Int) := by
  have hnospace : ∀ x ∈ s, isPySpace x = false :=
    fun x hx => isPySpace_false_of_isDigit (hdig x hx)
  unfold pyInt
  rw [dropWhile_eq_self_of_all s hnospace,
    dropWhile_eq_self_of_all s.reverse
      (fun x hx => hnospace x (List.mem_reverse.mp hx)),
    List.reverse_reverse]
  cases s with
  | nil => exact absurd rfl hne
  | cons c r => exact pyIntCore_digits c r hdig

lemma mapM_pyInt_digits :
    ∀ gs : List (List Char),
      (∀ s ∈ gs, s ≠ [] ∧ ∀ c ∈ s, c.isDigit = true) →
      gs.mapM pyInt = some (gs.map (fun s => ((digitsVal s : Nat) : Int))) := by
  intro gs
  induction gs with
  | nil => intro _; rfl
  | cons s rest ih =>
    intro h
    rw [List.mapM_cons,
      pyInt_digits s (h s (List.mem_cons_self s rest)).1
        (h s (List.mem_cons_self s rest)).2,
      ih (fun x hx => h x (List.mem_cons_of_mem s hx))]
    rfl

lemma mem_commaJoin :
    ∀ (gs : List (List Char)) (c : Char),
      c ∈ commaJoin gs → c = ',' ∨ ∃ g ∈ gs, c ∈ g := by
  intro gs
  induction gs with
  | nil => intro c h; simp [commaJoin] at h
  | cons g rest ih =>
    intro c h
    cases rest with
    | nil => exact Or.inr ⟨g, List.mem_cons_self g [], h⟩
    | cons g2 r2 =>
      rw [show commaJoin (g :: g2 :: r2) = g ++ ',' :: commaJoin (g2 :: r2)
        from rfl] at h
      rcases List.mem_append.mp h with h1 | h1
      · exact Or.inr ⟨g, List.mem_cons_self g _, h1⟩
      · rcases List.mem_cons.mp h1 with h2 | h2
        · exact Or.inl h2
        · rcases ih c h2 with h3 | ⟨g', hg', hc⟩
          · exact Or.inl h3
          · exact Or.inr ⟨g', List.mem_cons_of_mem g hg', hc⟩

lemma commaJoin_ne_nil :
    ∀ gs : List (List Char), gs ≠ [] → (∀ s ∈ gs, s ≠ []) →
      commaJoin gs ≠ [] := by
  intro gs hne h
  cases gs with
  | nil => exact absurd rfl hne
  | cons g rest =>
    cases rest with
    | nil => exact h g (List.mem_cons_self g [])
    | cons g2 r2 =>
      show g ++ ',' :: commaJoin (g2 :: r2) ≠ []
      simp

/-- C7 counterexample: a descriptor whose `Languages` attribute separates
the locale IDs with a semicolon.  The extraction splits on `","` only, so
`int("1033;1031")` raises `ValueError`: parsing fails instead of yielding
the locale IDs, and the splitter aborts. -/
theorem c7_counterexample :
    parseLcids ("Languages=\"1033;1031\"".toList) = .error .valueError ∧
    windows_installer_display_lang "EDMarketConnector" "out.msi"
        ("Languages=\"1033;1031\"".toList) "T" "S" (fun _ => 0) =
      ⟨[], some .valueError⟩ :=
  ⟨rfl, rfl⟩

/-- C7 (amended): the locale-ID extraction parses the descriptor's
`Languages` attribute as a COMMA-separated list: for every descriptor
whose `Languages` attribute is the comma-separated join of (nonempty,
decimal-digit) integer locale IDs, parsing yields the full list of
integer locale IDs without failing.  (Semicolon separators, which the
original claim also allowed, make the extraction raise `ValueError`
instead — see the counterexample.) -/
theorem c7_amended_comma_separated_parse
    (ids : List (List Char)) (hne : ids ≠ [])
    (hdig : ∀ s ∈ ids, s ≠ [] ∧ ∀ c ∈ s, c.isDigit = true) :
    parseLcids (mkLanguagesWxs (commaJoin ids)) =
      .ok (ids.map (fun s => ((digitsVal s : Nat) : Int))) := by
  have hqc : ∀ c ∈ commaJoin ids, c ≠ '"' := by
    intro c hc
    rcases mem_commaJoin ids c hc with h | ⟨g, hg, hcg⟩
    · rw [h]; decide
    · exact fun he => absurd (he ▸ (hdig g hg).2 c hcg) (by decide)
  have hnc : ∀ c ∈ commaJoin ids, c ≠ '\n' := by
    intro c hc
    rcases mem_commaJoin ids c hc with h | ⟨g, hg, hcg⟩
    · rw [h]; decide
    · exact fun he => absurd (he ▸ (hdig g hg).2 c hcg) (by decide)
  have hjne : commaJoin ids ≠ [] :=
    commaJoin_ne_nil ids hne (fun s hs => (hdig s hs).1)
  unfold parseLcids
  rw [reSearchLanguages_mk (commaJoin ids) hjne hqc hnc]
  change (match (splitOnComma (commaJoin ids)).mapM pyInt with
    | none => Except.error PyErr.valueError
    | some lcids => Except.ok lcids) = _
  rw [splitOnComma_commaJoin ids hne
      (fun g hg c hc he => absurd (he ▸ (hdig g hg).2 c hc) (by decide)),
    mapM_pyInt_digits ids hdig]

theorem c7_witness :
    parseLcids (mkLanguagesWxs
        (commaJoin [['1', '0', '3', '3'], ['1', '0', '3', '1']])) =
      .ok ([['1', '0', '3', '3'], ['1', '0', '3', '1']].map
        (fun s => ((digitsVal s : Nat) : Int))) :=
  c7_amended_comma_separated_parse
    [['1', '0', '3', '3'], ['1', '0', '3', '1']] (by decide) (by decide)

end Build
